import Mathlib

/-!
# Verification of the bytelsp core against its specification

Shallow embedding of the bytelsp Go repository's core components:

* the symbol-position resolver (`internal/tools`, file `symbol.go`:
  `FindSymbolPosition`, `findDeclPosition`, `findFirstIdentPosition`,
  `findSymbolInText`, `isSymbolBoundary`, `isIdentChar`, `positionFromIndex`),
* the position-repair scan (`internal/mcp/server.go`: `adjustPositionFromCode`,
  `pickSpan`, `findIdentifierSpans`, `isIdentStart`, `isIdentPart`),
* the document synchronizer (`internal/gopls`, `DocumentManager.OpenOrUpdate`),
* the diagnostic hub (`internal/mcp/server.go`: `diagHub.Update`, `diagHub.Wait`),
* the frame codec (`internal/gopls/client.go`: `writeMessage`, `readMessage`),
* the RPC correlator's pending-table protocol (`internal/gopls/client.go`:
  `SendRequest`, `readLoop`, `closePending`).

Source text is modelled as its character sequence (`List Char`); the Go code
indexes bytes, which coincides with characters on the ASCII inputs considered.
Wire bytes are modelled as `List Nat`. Loops with non-structural index
arithmetic carry an explicit fuel argument sized so that it can never run out
on the arguments the source supplies.
-/

/-! ## Symbol finder text utilities (tools/symbol.go) -/

/-- Embeds `isIdentChar`: ASCII letter, digit or underscore. -/
def isIdentChar (c : Char) : Bool :=
  (decide (97 ≤ c.toNat) && decide (c.toNat ≤ 122)) ||
  (decide (65 ≤ c.toNat) && decide (c.toNat ≤ 90)) ||
  (decide (48 ≤ c.toNat) && decide (c.toNat ≤ 57)) ||
  (c.toNat == 95)

/-- First index at or after `start` where `symbol` occurs in `code`; embeds
`strings.Index(code[start:], symbol) + start` as used by `findSymbolInText`. -/
def strIndexFrom (code symbol : List Char) (start : Nat) : Option Nat :=
  (List.range (code.length + 1)).find?
    (fun i => decide (start ≤ i) && symbol.isPrefixOf (code.drop i))

/-- Embeds `isSymbolBoundary`: the characters just before and just after the
occurrence (when they exist) must not be identifier characters. -/
def isSymbolBoundary (code : List Char) (idx length : Nat) : Bool :=
  (if 0 < idx then !(isIdentChar (code.getD (idx - 1) ' ')) else true) &&
  (if idx + length < code.length then !(isIdentChar (code.getD (idx + length) ' ')) else true)

/-- Embeds the search loop of `findSymbolInText`: find the next occurrence at or
after `start`, return it if boundary-delimited, else restart just past it.
`fuel` bounds the iteration count; `code.length + 1` always suffices since each
round advances `start` by at least `symbol.length ≥ 1` (for the empty symbol the
Go loop would not terminate; `FindSymbolPosition` guards against it). -/
def findSymbolLoop (code symbol : List Char) : Nat → Nat → Option Nat
  | 0, _ => none
  | fuel + 1, start =>
    match strIndexFrom code symbol start with
    | none => none
    | some idx =>
      if isSymbolBoundary code idx symbol.length then some idx
      else findSymbolLoop code symbol fuel (idx + symbol.length)

/-- Embeds `positionFromIndex`: 1-based line/column of byte offset `idx`,
counting newlines among the first `idx` characters. -/
def positionFromIndex (code : List Char) (idx : Nat) : Nat × Nat :=
  (code.take idx).foldl
    (fun lc c => if c = '\n' then (lc.1 + 1, 1) else (lc.1, lc.2 + 1)) (1, 1)

/-- Embeds `findSymbolInText`: raw-text scan for the first boundary-delimited
occurrence of `symbol`, converted to a 1-based line/column. -/
def findSymbolInText (code symbol : List Char) : Nat × Nat × Bool :=
  match findSymbolLoop code symbol (code.length + 1) 0 with
  | none => (0, 0, false)
  | some idx =>
    match positionFromIndex code idx with
    | (line, col) => (line, col, true)

/-! ## Go syntax tree model (tools/symbol.go AST scans)

`go/parser` is external; the parse result is passed to the resolver explicitly.
A `GoNode` records exactly what the finder inspects: identifier nodes with
their 1-based positions, every other node kind abstracted to its child list in
source order. `GoDecl`/`GoSpec` mirror the top-level declaration shapes matched
by `findDeclPosition` (`FuncDecl`, `GenDecl` with `TypeSpec`/`ValueSpec`);
a possibly-nil name token is an `Option (name, line, col)`. -/

inductive GoNode where
  | ident (name : String) (line col : Nat)
  | other (children : List GoNode)


inductive GoSpec where
  | typeSpec (name : Option (String × Nat × Nat))
  | valueSpec (names : List (Option (String × Nat × Nat)))
  | importSpec


inductive GoDecl where
  | funcDecl (name : Option (String × Nat × Nat))
  | genDecl (specs : List GoSpec)


/-- A parsed file: the top-level declaration list (`file.Decls`) and the full
tree that `ast.Inspect(file, _)` traverses. -/
structure GoFile where
  decls : List GoDecl
  root : GoNode


/-- Name-token match for one spec, as in the `GenDecl` arm of `findDeclPosition`. -/
def specPosition (symbol : String) : GoSpec → Option (Nat × Nat)
  | GoSpec.typeSpec (some (n, l, c)) => if n = symbol then some (l, c) else none
  | GoSpec.typeSpec none => none
  | GoSpec.valueSpec names =>
    names.findSome? (fun x =>
      match x with
      | some (n, l, c) => if n = symbol then some (l, c) else none
      | none => none)
  | GoSpec.importSpec => none

/-- Embeds `findDeclPosition`: scan top-level declarations in file order and
return the first name token equal to `symbol`. -/
def findDeclPosition (decls : List GoDecl) (symbol : String) : Option (Nat × Nat) :=
  decls.findSome? (fun d =>
    match d with
    | GoDecl.funcDecl (some (n, l, c)) => if n = symbol then some (l, c) else none
    | GoDecl.funcDecl none => none
    | GoDecl.genDecl specs => specs.findSome? (specPosition symbol))

mutual
/-- Embeds the `ast.Inspect` callback of `findFirstIdentPosition`: visit nodes
in pre-order; on a matching identifier overwrite the accumulator `found` and
return false, which only prunes that node's (empty) child list — the traversal
of the remaining siblings continues, so the final accumulator is the LAST
matching identifier in pre-order, not the first. -/
def inspectIdent (symbol : String) (acc : Option (Nat × Nat)) : GoNode → Option (Nat × Nat)
  | GoNode.ident n l c => if n = symbol then some (l, c) else acc
  | GoNode.other cs => inspectIdentList symbol acc cs

/-- Folds `inspectIdent` over a child list in source order. -/
def inspectIdentList (symbol : String) (acc : Option (Nat × Nat)) : List GoNode → Option (Nat × Nat)
  | [] => acc
  | n :: ns => inspectIdentList symbol (inspectIdent symbol acc n) ns
end

/-- Embeds `findFirstIdentPosition` (the name promises the first pre-order
match; see `inspectIdent` for what the traversal actually computes). -/
def findFirstIdentPosition (file : GoFile) (symbol : String) : Option (Nat × Nat) :=
  inspectIdent symbol none file.root

mutual
/-- The first identifier named `symbol` in a genuine pre-order traversal —
the behaviour the specification describes for the fallback lookup. -/
def firstIdentPreOrder (symbol : String) : GoNode → Option (Nat × Nat)
  | GoNode.ident n l c => if n = symbol then some (l, c) else none
  | GoNode.other cs => firstIdentListPreOrder symbol cs

/-- First pre-order match within a child list. -/
def firstIdentListPreOrder (symbol : String) : List GoNode → Option (Nat × Nat)
  | [] => none
  | n :: ns =>
    match firstIdentPreOrder symbol n with
    | some p => some p
    | none => firstIdentListPreOrder symbol ns
end

/-- Embeds `FindSymbolPosition`. The call to `parser.ParseFile` is external
I/O, so its result is passed in as `parsed` (`none` models a parse error).
Note the source's control flow: after a successful parse whose declaration scan
and identifier traversal both miss, execution falls through to the raw-text
scan — there is no early return of `found = false`. -/
def FindSymbolPosition (code symbol : String) (parsed : Option GoFile) : Nat × Nat × Bool :=
  if code = "" || symbol = "" then (0, 0, false)
  else
    match parsed with
    | some file =>
      match findDeclPosition file.decls symbol with
      | some (l, c) => (l, c, true)
      | none =>
        match findFirstIdentPosition file symbol with
        | some (l, c) => (l, c, true)
        | none => findSymbolInText code.toList symbol.toList
    | none => findSymbolInText code.toList symbol.toList

/-! ## Concrete parse results used by the resolver claims -/

/-- Syntax tree of `"package main\n\nfunc a() \x7b\n\tz := 1\n\tz = 2\n\x7d"`:
the package-name identifier, then the function declaration whose body assigns
`z` twice, at lines 4 and 5, column 2. -/
def lastWinsFile : GoFile :=
  { decls := [GoDecl.funcDecl (some ("a", 3, 6))],
    root := GoNode.other
      [GoNode.ident "main" 1 9,
       GoNode.other
         [GoNode.ident "a" 3 6,
          GoNode.other [],
          GoNode.other
            [GoNode.other [GoNode.ident "z" 4 2, GoNode.other []],
             GoNode.other [GoNode.ident "z" 5 2, GoNode.other []]]]] }

/-- Syntax tree of `"package main // hello\n"`: only the package-name
identifier; the word `hello` exists solely inside the comment. -/
def commentFile : GoFile :=
  { decls := [], root := GoNode.other [GoNode.ident "main" 1 9] }

/-- Boundary-scan soundness: whenever the `findSymbolInText` loop reports an
index, `symbol` occurs there and the occurrence is boundary-delimited. -/
theorem findSymbolLoop_sound (code symbol : List Char) :
    ∀ (fuel start idx : Nat), findSymbolLoop code symbol fuel start = some idx →
      symbol.isPrefixOf (code.drop idx) = true ∧
      isSymbolBoundary code idx symbol.length = true := by
  intro fuel
  induction fuel with
  | zero => intro start idx h; simp [findSymbolLoop] at h
  | succ n ih =>
    intro start idx h
    rw [findSymbolLoop] at h
    cases hfind : strIndexFrom code symbol start with
    | none => rw [hfind] at h; exact absurd h (by simp)
    | some j =>
      simp only [hfind] at h
      rw [strIndexFrom] at hfind
      have hp := List.find?_some hfind
      simp only [Bool.and_eq_true, decide_eq_true_eq] at hp
      by_cases hb : isSymbolBoundary code j symbol.length = true
      · rw [if_pos hb] at h
        cases h
        exact ⟨hp.2, hb⟩
      · rw [if_neg hb] at h
        exact ih (j + symbol.length) idx h

/-- C9: searching `"var LastName string; var Name int"` for `"Name"` returns
line 1 column 26 — the standalone second occurrence, not the substring of
`LastName` (column 9) — and in general any index the raw-text scan reports
carries an occurrence of the symbol bounded by non-identifier characters on
both sides. -/
theorem identifier_boundary_scan :
    (findSymbolInText "var LastName string; var Name int".toList "Name".toList
      = (1, 26, true)) ∧
    ∀ (code symbol : List Char) (l c : Nat),
      findSymbolInText code symbol = (l, c, true) →
      ∃ idx, findSymbolLoop code symbol (code.length + 1) 0 = some idx ∧
        positionFromIndex code idx = (l, c) ∧
        symbol.isPrefixOf (code.drop idx) = true ∧
        isSymbolBoundary code idx symbol.length = true := by
  refine ⟨by decide, ?_⟩
  intro code symbol l c h
  unfold findSymbolInText at h
  cases hloop : findSymbolLoop code symbol (code.length + 1) 0 with
  | none => rw [hloop] at h; simp at h
  | some idx =>
    simp only [hloop] at h
    rcases hpi : positionFromIndex code idx with ⟨a, b⟩
    rw [hpi] at h
    have hab : a = l ∧ b = c := by simpa using h
    obtain ⟨hocc, hbnd⟩ := findSymbolLoop_sound code symbol _ _ _ hloop
    exact ⟨idx, rfl, by rw [hpi, hab.1, hab.2], hocc, hbnd⟩

/-- Witness for C9 at the claim's own input: the scan settles on index 25
(line 1, column 26), where `Name` occurs with a space on either side. -/
theorem identifier_boundary_scan_witness :
    ∃ idx, findSymbolLoop "var LastName string; var Name int".toList "Name".toList
        ("var LastName string; var Name int".toList.length + 1) 0 = some idx ∧
      positionFromIndex "var LastName string; var Name int".toList idx = (1, 26) ∧
      "Name".toList.isPrefixOf ("var LastName string; var Name int".toList.drop idx) = true ∧
      isSymbolBoundary "var LastName string; var Name int".toList idx
        "Name".toList.length = true :=
  identifier_boundary_scan.2 _ _ 1 26 identifier_boundary_scan.1

/-- C3: `findFirstIdentPosition` is specified (by its own name, and by the
spec's "return the first identifier node with a matching name") to return the
earliest pre-order match, but the `ast.Inspect` callback overwrites `found` on
every match and only prunes children, so on a file whose function body mentions
`z` at line 4 and again at line 5 the finder — and hence `FindSymbolPosition`,
whose declaration scan misses `z` — reports the LAST occurrence (5,2), while a
genuine pre-order first traversal reports (4,2). -/
theorem inspect_returns_last_ident :
    findDeclPosition lastWinsFile.decls "z" = none ∧
    findFirstIdentPosition lastWinsFile "z" = some (5, 2) ∧
    firstIdentPreOrder "z" lastWinsFile.root = some (4, 2) ∧
    FindSymbolPosition "package main\n\nfunc a() \x7b\n\tz := 1\n\tz = 2\n\x7d" "z"
      (some lastWinsFile) = (5, 2, true) := by
  refine ⟨rfl, rfl, rfl, ?_⟩
  rfl

/-- C4 counterexample: `"package main // hello\n"` parses successfully and has
no declaration and no identifier node named `hello`, yet `FindSymbolPosition`
does not return found=false — it falls through to the raw-text scan and finds
the word inside the comment at line 1, column 17. -/
theorem parse_success_still_text_scans :
    findDeclPosition commentFile.decls "hello" = none ∧
    findFirstIdentPosition commentFile "hello" = none ∧
    FindSymbolPosition "package main // hello\n" "hello" (some commentFile)
      = (1, 17, true) := by
  refine ⟨rfl, rfl, ?_⟩
  decide

/-- C4 as amended: when parsing succeeded but neither the declaration scan nor
the identifier traversal matched, `FindSymbolPosition` falls back to the
raw-text scan (which can match inside comments or string literals); found=false
is returned only when that scan also finds nothing. -/
theorem fallback_text_scan_after_parse (code symbol : String) (file : GoFile)
    (hc : code ≠ "") (hs : symbol ≠ "")
    (hd : findDeclPosition file.decls symbol = none)
    (hi : findFirstIdentPosition file symbol = none) :
    FindSymbolPosition code symbol (some file)
      = findSymbolInText code.toList symbol.toList := by
  unfold FindSymbolPosition
  rw [if_neg (by simp [hc, hs])]
  simp only [hd, hi]

/-- Witness for the amended C4 at the comment example. -/
theorem fallback_text_scan_after_parse_witness :
    FindSymbolPosition "package main // hello\n" "hello" (some commentFile)
      = findSymbolInText "package main // hello\n".toList "hello".toList :=
  fallback_text_scan_after_parse _ _ commentFile (by decide) (by decide) rfl rfl

/-! ## Position repair (mcp/server.go: adjustPositionFromCode, pickSpan) -/

/-- Embeds `isIdentStart`: underscore or ASCII letter. -/
def isIdentStart (c : Char) : Bool :=
  (c.toNat == 95) ||
  (decide (65 ≤ c.toNat) && decide (c.toNat ≤ 90)) ||
  (decide (97 ≤ c.toNat) && decide (c.toNat ≤ 122))

/-- Embeds `isIdentPart`: `isIdentStart` or ASCII digit. -/
def isIdentPart (c : Char) : Bool :=
  isIdentStart c || (decide (48 ≤ c.toNat) && decide (c.toNat ≤ 57))

/-- Embeds the server's `identSpan`: 1-based column bounds of one identifier
occurrence on a line (`stop` embeds the source's field `end`, a keyword here). -/
structure identSpan where
  start : Nat
  stop : Nat
deriving DecidableEq

/-- Embeds the scanning loop of `findIdentifierSpans`. `i` is the 1-based
column of the next rune; `run` is the start column of the identifier run being
consumed, if one is open. A rune failing `isIdentPart` also fails
`isIdentStart`, so after closing a run the scan resumes at the next rune just
as the source's outer loop does. -/
def spanScan : List Char → Nat → Option Nat → List identSpan
  | [], _, none => []
  | [], i, some s => [⟨s, i - 1⟩]
  | c :: cs, i, none =>
    if isIdentStart c then spanScan cs (i + 1) (some i) else spanScan cs (i + 1) none
  | c :: cs, i, some s =>
    if isIdentPart c then spanScan cs (i + 1) (some s)
    else ⟨s, i - 1⟩ :: spanScan cs (i + 1) none

/-- Embeds `findIdentifierSpans`: all identifier spans of one line, in order. -/
def findIdentifierSpans (line : List Char) : List identSpan :=
  spanScan line 1 none

/-- Embeds `pickSpan` (`none` models the `ok = false` return): with no spans on
the line fail; else first span containing the (clamped) column, else first span
starting at or after it, else the LAST span of the line. -/
def pickSpan (line : List Char) (col : Nat) : Option identSpan :=
  let spans := findIdentifierSpans line
  match spans.getLast? with
  | none => none
  | some lastSpan =>
    let col := if col < 1 then 1 else col
    match spans.find? (fun sp => decide (col ≥ sp.start) && decide (col ≤ sp.stop)) with
    | some sp => some sp
    | none =>
      match spans.find? (fun sp => decide (sp.start ≥ col)) with
      | some sp => some sp
      | none => some lastSpan

/-- Embeds `strings.Split(code, "\n")`: the list of lines, keeping a final
empty segment exactly as Go does. -/
def splitLines : List Char → List (List Char)
  | [] => [[]]
  | c :: cs =>
    if c = '\n' then [] :: splitLines cs
    else
      match splitLines cs with
      | l :: ls => (c :: l) :: ls
      | [] => [[c]]

/-- First line of `numbered` (0-based index paired with content) owning any
identifier span, with the span `pickSpan` selects at column 1; embeds the
forward/backward rescue loops of `adjustPositionFromCode`. -/
def firstLineWithSpan (numbered : List (Nat × List Char)) : Option (Nat × identSpan) :=
  numbered.findSome? (fun p => (pickSpan p.2 1).map (fun sp => (p.1, sp)))

/-- Embeds `adjustPositionFromCode`: repair the 1-based (line, col) against the
source text; try the target line, then every following line, then every
preceding line in reverse; fail only when out of range or when no line in the
file has an identifier span. -/
def adjustPositionFromCode (code : String) (line col : Nat) : Nat × Nat × Bool :=
  let lines := splitLines code.toList
  if line < 1 || lines.length < line then (0, 0, false)
  else
    match pickSpan (lines.getD (line - 1) []) col with
    | some sp => (line, sp.start, true)
    | none =>
      match firstLineWithSpan (lines.enum.drop line) with
      | some (i, sp) => (i + 1, sp.start, true)
      | none =>
        match firstLineWithSpan ((lines.enum.take (line - 1)).reverse) with
        | some (i, sp) => (i + 1, sp.start, true)
        | none => (0, 0, false)

/-- The span-picking step exactly as claim C5 words it: snap to the span
containing the column, else the first span at or after it — with no further
fallback on the same line. -/
def pickSpanClaim (line : List Char) (col : Nat) : Option identSpan :=
  let spans := findIdentifierSpans line
  let col := if col < 1 then 1 else col
  match spans.find? (fun sp => decide (col ≥ sp.start) && decide (col ≤ sp.stop)) with
  | some sp => some sp
  | none => spans.find? (fun sp => decide (sp.start ≥ col))

/-- Position repair exactly as claim C5 words it: built on `pickSpanClaim`, so
a target line whose spans all end before the column sends the repair to the
forward/backward scan instead of the line's own last span. -/
def adjustPositionClaim (code : String) (line col : Nat) : Nat × Nat × Bool :=
  let lines := splitLines code.toList
  if line < 1 || lines.length < line then (0, 0, false)
  else
    match pickSpanClaim (lines.getD (line - 1) []) col with
    | some sp => (line, sp.start, true)
    | none =>
      match (lines.enum.drop line).findSome?
          (fun p => (pickSpanClaim p.2 1).map (fun sp => (p.1, sp))) with
      | some (i, sp) => (i + 1, sp.start, true)
      | none =>
        match ((lines.enum.take (line - 1)).reverse).findSome?
            (fun p => (pickSpanClaim p.2 1).map (fun sp => (p.1, sp))) with
        | some (i, sp) => (i + 1, sp.start, true)
        | none => (0, 0, false)

/-- C5 counterexample: on the two-line text `"ab\ncd"` with requested position
(1, 9) — column past every span of line 1 — the code snaps to the LAST span of
the target line, returning (1, 1), while the order claimed (inside-span, else
first span at or after the column, else scan other lines) would move on to line
2 and return (2, 1). The claim's description of the repair order is false of
`adjustPositionFromCode`. -/
theorem adjustPosition_last_span_fallback :
    adjustPositionFromCode "ab\ncd" 1 9 = (1, 1, true) ∧
    adjustPositionClaim "ab\ncd" 1 9 = (2, 1, true) ∧
    adjustPositionFromCode "ab\ncd" 1 9 ≠ adjustPositionClaim "ab\ncd" 1 9 := by
  refine ⟨by decide, by decide, by decide⟩

/-- The span-picking step as the amended claim words it: with no spans on the
line fail; else snap to the span containing the column, else to the first span
at or after it, else to the last span of the line. -/
def pickSpanAmended (line : List Char) (col : Nat) : Option identSpan :=
  let spans := findIdentifierSpans line
  let c := if col < 1 then 1 else col
  if spans.isEmpty then none
  else
    match spans.find? (fun sp => decide (c ≥ sp.start) && decide (c ≤ sp.stop)) with
    | some sp => some sp
    | none =>
      match spans.find? (fun sp => decide (sp.start ≥ c)) with
      | some sp => some sp
      | none => spans.getLast?

/-- Position repair as the amended claim words it, built on `pickSpanAmended`:
the forward-then-backward line scan happens only when the target line itself
has no identifier spans. -/
def adjustPositionAmended (code : String) (line col : Nat) : Nat × Nat × Bool :=
  let lines := splitLines code.toList
  if line < 1 || lines.length < line then (0, 0, false)
  else
    match pickSpanAmended (lines.getD (line - 1) []) col with
    | some sp => (line, sp.start, true)
    | none =>
      match (lines.enum.drop line).findSome?
          (fun p => (pickSpanAmended p.2 1).map (fun sp => (p.1, sp))) with
      | some (i, sp) => (i + 1, sp.start, true)
      | none =>
        match ((lines.enum.take (line - 1)).reverse).findSome?
            (fun p => (pickSpanAmended p.2 1).map (fun sp => (p.1, sp))) with
        | some (i, sp) => (i + 1, sp.start, true)
        | none => (0, 0, false)

/-- The source's `pickSpan` and the amended claim's wording agree. -/
theorem pickSpan_eq_amended (line : List Char) (col : Nat) :
    pickSpan line col = pickSpanAmended line col := by
  unfold pickSpan pickSpanAmended
  cases h : (findIdentifierSpans line).getLast? with
  | none =>
    have hnil : findIdentifierSpans line = [] := by
      cases hl : findIdentifierSpans line with
      | nil => rfl
      | cons x xs => rw [hl] at h; simp [List.getLast?] at h
    simp [hnil]
  | some s =>
    have hne : (findIdentifierSpans line).isEmpty = false := by
      cases hl : findIdentifierSpans line with
      | nil => rw [hl] at h; simp [List.getLast?] at h
      | cons x xs => simp
    simp [hne, h]

/-- C5 as amended: `adjustPositionFromCode` computes exactly the amended repair
order — target-line snap (inside span, else first at-or-after, else last span
of the line), then a forward scan of all later lines, then a backward scan of
all earlier lines, else failure. -/
theorem adjustPosition_follows_amended_order (code : String) (line col : Nat) :
    adjustPositionFromCode code line col = adjustPositionAmended code line col := by
  unfold adjustPositionFromCode adjustPositionAmended firstLineWithSpan
  simp only [pickSpan_eq_amended]

/-! ## Document synchronizer (gopls/document.go: DocumentManager.OpenOrUpdate)

The version table `dm.docs : map[string]int` is modelled as an association
list with Go map semantics: lookup finds the entry, store replaces the entry in
place or appends a fresh one. -/

/-- Map read `m[k]` (second return value = presence encoded as `Option`). -/
def lookupA {α : Type} (m : List (String × α)) (k : String) : Option α :=
  (m.find? (fun p => p.1 == k)).map (fun p => p.2)

/-- Map store `m[k] = v`. -/
def setA {α : Type} (m : List (String × α)) (k : String) (v : α) : List (String × α) :=
  if (m.find? (fun p => p.1 == k)).isSome then
    m.map (fun p => if p.1 == k then (k, v) else p)
  else m ++ [(k, v)]

/-- Reading back a stored key yields the stored value. -/
theorem lookupA_setA {α : Type} (m : List (String × α)) (k : String) (v : α) :
    lookupA (setA m k v) k = some v := by
  induction m with
  | nil => simp [setA, lookupA]
  | cons p ps ih =>
    by_cases hp : p.1 = k
    · have hfind : List.find? (fun q => q.1 == k) (p :: ps) = some p :=
        List.find?_cons_of_pos _ (by simpa using hp)
      have hset : setA (p :: ps) k v
          = (k, v) :: ps.map (fun q => if q.1 == k then (k, v) else q) := by
        unfold setA
        rw [hfind]
        simp [hp]
      rw [hset]
      unfold lookupA
      rw [List.find?_cons_of_pos _ (by simp)]
      rfl
    · have hset : setA (p :: ps) k v = p :: setA ps k v := by
        unfold setA
        rw [List.find?_cons_of_neg _ (by simpa using hp)]
        by_cases hf : (List.find? (fun q => q.1 == k) ps).isSome
        · rw [if_pos hf, if_pos hf, List.map_cons, if_neg (by simpa using hp)]
        · rw [if_neg hf, if_neg hf]
          rfl
      rw [hset]
      unfold lookupA
      rw [List.find?_cons_of_neg _ (by simpa using hp)]
      exact ih

/-- The notification `OpenOrUpdate` emits: document-open with version 1 and
the full text, or document-update with the bumped version and the full
replacement text (`contentChanges` carries the whole document). -/
inductive DocNotif where
  | didOpen (uri languageID : String) (version : Nat) (text : String)
  | didChange (uri : String) (version : Nat) (text : String)
deriving DecidableEq

/-- Embeds `DocumentManager.OpenOrUpdate`. `client.SendNotification` is
external I/O; its outcome is passed in as `sendErr` (`none` = success).
Returns the updated version map, the returned version (0 on error), the
returned error, and the notification the call attempted. The map entry is
written only after a successful send. -/
def OpenOrUpdate (docs : List (String × Nat)) (uri languageID content : String)
    (sendErr : Option String) :
    List (String × Nat) × Nat × Option String × DocNotif :=
  match lookupA docs uri with
  | none =>
    match sendErr with
    | some e => (docs, 0, some e, DocNotif.didOpen uri languageID 1 content)
    | none => (setA docs uri 1, 1, none, DocNotif.didOpen uri languageID 1 content)
  | some v =>
    match sendErr with
    | some e => (docs, 0, some e, DocNotif.didChange uri (v + 1) content)
    | none => (setA docs uri (v + 1), v + 1, none, DocNotif.didChange uri (v + 1) content)

/-- N sequential successful `OpenOrUpdate` calls on one uri: final map and the
per-call (version, notification) outcomes in order. -/
def runOpens (uri languageID : String) :
    List (String × Nat) → List String → List (String × Nat) × List (Nat × DocNotif)
  | docs, [] => (docs, [])
  | docs, c :: cs =>
    match OpenOrUpdate docs uri languageID c none with
    | (docs', v, _, notif) =>
      match runOpens uri languageID docs' cs with
      | (finalDocs, outs) => (finalDocs, (v, notif) :: outs)

/-- Once the uri is known with version `v`, successive successful calls emit
didChange notifications with versions `v+1, v+2, ...`. -/
theorem runOpens_updates (uri lang : String) (cs : List String) :
    ∀ (docs : List (String × Nat)) (v : Nat), lookupA docs uri = some v →
      (runOpens uri lang docs cs).2
        = List.zipWith (fun k ck => (k, DocNotif.didChange uri k ck))
            (List.range' (v + 1) cs.length) cs := by
  induction cs with
  | nil => intro docs v _; rfl
  | cons c cs ih =>
    intro docs v h
    have hstep : OpenOrUpdate docs uri lang c none
        = (setA docs uri (v + 1), v + 1, none, DocNotif.didChange uri (v + 1) c) := by
      simp [OpenOrUpdate, h]
    have hnext := ih (setA docs uri (v + 1)) (v + 1) (lookupA_setA docs uri (v + 1))
    simp only [runOpens, hstep]
    cases hrun : runOpens uri lang (setA docs uri (v + 1)) cs with
    | mk finalDocs outs =>
      rw [hrun] at hnext
      simp only [List.range'_succ, List.zipWith]
      rw [← hnext]

/-- Maps the version component out of the zipped outcome list. -/
theorem map_fst_zipWith_pair (g : Nat → String → DocNotif) :
    ∀ (ks : List Nat) (cs : List String), ks.length = cs.length →
      (List.zipWith (fun k ck => (k, g k ck)) ks cs).map (fun p => p.1) = ks := by
  intro ks
  induction ks with
  | nil => intro cs _; simp
  | cons k ks ih =>
    intro cs hlen
    cases cs with
    | nil => simp at hlen
    | cons c cs => simpa using ih cs (by simpa using hlen)

/-- C6: starting from a uri unknown to the manager, N sequential successful
`OpenOrUpdate` calls return versions 1..N with no gaps or repeats; the first
emits a didOpen notification with version 1 and the full content, and each
later call k emits a didChange notification with version k and the full
replacement content. -/
theorem doc_version_monotonic (docs : List (String × Nat)) (uri lang : String)
    (contents : List String) (h : lookupA docs uri = none) :
    (runOpens uri lang docs contents).2
      = (match contents with
        | [] => []
        | c :: cs =>
          (1, DocNotif.didOpen uri lang 1 c) ::
            List.zipWith (fun k ck => (k, DocNotif.didChange uri k ck))
              (List.range' 2 cs.length) cs) ∧
    (runOpens uri lang docs contents).2.map (fun p => p.1)
      = List.range' 1 contents.length := by
  cases contents with
  | nil => exact ⟨rfl, rfl⟩
  | cons c cs =>
    have hstep : OpenOrUpdate docs uri lang c none
        = (setA docs uri 1, 1, none, DocNotif.didOpen uri lang 1 c) := by
      simp [OpenOrUpdate, h]
    have hrest := runOpens_updates uri lang cs (setA docs uri 1) 1 (lookupA_setA docs uri 1)
    have hmain : (runOpens uri lang docs (c :: cs)).2
        = (1, DocNotif.didOpen uri lang 1 c) ::
            List.zipWith (fun k ck => (k, DocNotif.didChange uri k ck))
              (List.range' 2 cs.length) cs := by
      simp only [runOpens, hstep]
      cases hrun : runOpens uri lang (setA docs uri 1) cs with
      | mk finalDocs outs =>
        rw [hrun] at hrest
        simpa using hrest
    refine ⟨hmain, ?_⟩
    rw [hmain]
    have : (List.range' 2 cs.length).length = cs.length := by simp
    simp only [List.map_cons, map_fst_zipWith_pair _ _ _ this]
    rfl

/-- Witness for C6: three successful calls on a fresh uri yield versions
1, 2, 3 with didOpen then didChange notifications. -/
theorem doc_version_monotonic_witness :
    (runOpens "file:///a.go" "go" [] ["a", "ab", "abc"]).2
      = (match ["a", "ab", "abc"] with
        | [] => []
        | c :: cs =>
          (1, DocNotif.didOpen "file:///a.go" "go" 1 c) ::
            List.zipWith (fun k ck => (k, DocNotif.didChange "file:///a.go" k ck))
              (List.range' 2 cs.length) cs) ∧
    (runOpens "file:///a.go" "go" [] ["a", "ab", "abc"]).2.map (fun p => p.1)
      = List.range' 1 (["a", "ab", "abc"] : List String).length :=
  doc_version_monotonic [] "file:///a.go" "go" ["a", "ab", "abc"] rfl

/-- C10: `OpenOrUpdate` is atomic on error — when the notification send fails
the call returns version 0 with the error and the version map is unchanged,
and a subsequent successful call continues the version sequence (1 for a uri
the failed open left unknown, v+1 for a uri whose update failed at version v). -/
theorem openOrUpdate_atomic_on_error (docs : List (String × Nat))
    (uri lang content : String) (e : String) :
    (OpenOrUpdate docs uri lang content (some e)).1 = docs ∧
    (OpenOrUpdate docs uri lang content (some e)).2.1 = 0 ∧
    (OpenOrUpdate docs uri lang content (some e)).2.2.1 = some e ∧
    ∀ content', (OpenOrUpdate docs uri lang content' none).2.1
      = (match lookupA docs uri with | none => 1 | some v => v + 1) := by
  cases h : lookupA docs uri with
  | none => refine ⟨?_, ?_, ?_, ?_⟩ <;> simp [OpenOrUpdate, h]
  | some v => refine ⟨?_, ?_, ?_, ?_⟩ <;> simp [OpenOrUpdate, h]

/-! ## RPC correlator pending-table protocol (gopls/client.go)

The shared pending table and the messages the reader/cancellation paths push
into the per-call capacity-1 channels, as one sequential transition system.
`pending` holds the registered ids (`SendRequest` inserts a fresh id under
`pendMu` before writing the frame); `delivered` logs every send into a pending
call's channel. `readLoop` processes each inbound id-bearing frame by looking
the id up and removing it under the lock, then sending to the channel only if
one was found; `SendRequest`'s deadline branch removes the id; both orders of
lock acquisition serialize, which the event list models. -/

/-- A response as the correlator's channels carry it: the fields `SendRequest`
reads are `Result` and `Error` (code, message); `Error ≠ none` makes the call
return an error, `Error = none` a success. -/
structure RpcMessage where
  result : Option String
  error : Option (Int × String)
deriving DecidableEq

/-- Correlator state: registered pending ids plus the delivery log. -/
structure RPCState where
  pending : List Nat
  delivered : List (Nat × RpcMessage)

/-- One serialized event against the pending table. -/
inductive RPCEvent where
  | response (id : Nat) (msg : RpcMessage)
  | cancel (id : Nat)

/-- Embeds the id-bearing branch of `readLoop` (`response`: look up, delete,
deliver only when a channel was found — unknown ids are discarded with no state
change and no delivery) and the `ctx.Done()` branch of `SendRequest` (`cancel`:
delete the id; the caller returns the cancellation error). -/
def rpcStep (s : RPCState) : RPCEvent → RPCState
  | RPCEvent.response id msg =>
    if id ∈ s.pending then
      { pending := s.pending.erase id, delivered := s.delivered ++ [(id, msg)] }
    else s
  | RPCEvent.cancel id => { s with pending := s.pending.erase id }

/-- Runs a serialized event list. -/
def rpcRun (s : RPCState) (evs : List RPCEvent) : RPCState :=
  evs.foldl rpcStep s

/-- Deliveries into the channel of `id` so far. -/
def deliveredCount (id : Nat) (s : RPCState) : Nat :=
  (s.delivered.filter (fun p => p.1 == id)).length

/-- Correlator invariant for one id: its channel received at most one message,
none while it is still pending, and the table holds no duplicate ids. -/
def OnceInv (id : Nat) (s : RPCState) : Prop :=
  deliveredCount id s ≤ 1 ∧ (id ∈ s.pending → deliveredCount id s = 0) ∧ s.pending.Nodup

/-- `rpcStep` never adds ids to the pending table. -/
theorem rpcStep_pending_subset (s : RPCState) (e : RPCEvent) (id : Nat)
    (h : id ∈ (rpcStep s e).pending) : id ∈ s.pending := by
  cases e with
  | response j m =>
    by_cases hj : j ∈ s.pending
    · simp only [rpcStep, if_pos hj] at h
      exact List.mem_of_mem_erase h
    · simpa only [rpcStep, if_neg hj] using h
  | cancel j => exact List.mem_of_mem_erase h

/-- One step preserves the invariant. -/
theorem rpcStep_inv (id : Nat) (s : RPCState) (e : RPCEvent)
    (h : OnceInv id s) : OnceInv id (rpcStep s e) := by
  obtain ⟨hle, hpend, hnd⟩ := h
  cases e with
  | response j m =>
    by_cases hj : j ∈ s.pending
    · by_cases hij : j = id
      · rw [hij] at hj
        rw [hij]
        simp only [rpcStep, if_pos hj]
        have hz : deliveredCount id s = 0 := hpend hj
        have hcount : deliveredCount id
            { pending := s.pending.erase id,
              delivered := s.delivered ++ [(id, m)] } = 1 := by
          unfold deliveredCount at hz ⊢
          simp [List.filter_append, hz]
        refine ⟨le_of_eq hcount, ?_, List.Nodup.erase id hnd⟩
        intro hmem
        rw [List.Nodup.mem_erase_iff hnd] at hmem
        exact absurd rfl hmem.1
      · simp only [rpcStep, if_pos hj]
        have hcount : deliveredCount id
            { pending := s.pending.erase j,
              delivered := s.delivered ++ [(j, m)] } = deliveredCount id s := by
          unfold deliveredCount
          simp [List.filter_append, hij]
        refine ⟨by rw [hcount]; exact hle, ?_, List.Nodup.erase j hnd⟩
        intro hmem
        rw [hcount]
        exact hpend (List.mem_of_mem_erase hmem)
    · simpa only [rpcStep, if_neg hj] using ⟨hle, hpend, hnd⟩
  | cancel j =>
    refine ⟨hle, ?_, List.Nodup.erase j hnd⟩
    intro hmem
    exact hpend (List.mem_of_mem_erase hmem)

/-- A whole run preserves the invariant. -/
theorem rpcRun_inv (id : Nat) (evs : List RPCEvent) :
    ∀ s : RPCState, OnceInv id s → OnceInv id (rpcRun s evs) := by
  induction evs with
  | nil => intro s h; exact h
  | cons e es ih => intro s h; exact ih (rpcStep s e) (rpcStep_inv id s e h)

/-- Once an id is out of the pending table it stays out, and its delivery
count never changes again (late responses for it are discarded). -/
theorem rpcRun_absent_frozen (id : Nat) (evs : List RPCEvent) :
    ∀ s : RPCState, id ∉ s.pending →
      id ∉ (rpcRun s evs).pending ∧
      deliveredCount id (rpcRun s evs) = deliveredCount id s := by
  induction evs with
  | nil => intro s h; exact ⟨h, rfl⟩
  | cons e es ih =>
    intro s h
    have hstep : id ∉ (rpcStep s e).pending := fun hm => h (rpcStep_pending_subset s e id hm)
    have hcount : deliveredCount id (rpcStep s e) = deliveredCount id s := by
      cases e with
      | response j m =>
        by_cases hj : j ∈ s.pending
        · have hij : ¬j = id := fun he => h (he ▸ hj)
          simp [rpcStep, if_pos hj, deliveredCount, List.filter_append, hij]
        · simp [rpcStep, if_neg hj]
      | cancel j => simp [rpcStep, deliveredCount]
    obtain ⟨h1, h2⟩ := ih (rpcStep s e) hstep
    exact ⟨h1, h2.trans hcount⟩

/-- C1: at most one response is ever delivered per pending id. From any state
satisfying the correlator invariant, (a) any serialized future of responses and
cancellations delivers at most one message into the id's channel; (b) if the
call is cancelled first, the id leaves the pending table and stays out for the
whole future; and (c) after the cancellation no response for that id (nor for
any unknown id) is ever delivered — the channel's delivery count stays at the
pre-cancellation value, which is 0 when the call was still pending. -/
theorem rpc_at_most_one_response (s : RPCState) (id : Nat) (evs : List RPCEvent)
    (hinv : OnceInv id s) :
    deliveredCount id (rpcRun s evs) ≤ 1 ∧
    id ∉ (rpcRun (rpcStep s (RPCEvent.cancel id)) evs).pending ∧
    deliveredCount id (rpcRun (rpcStep s (RPCEvent.cancel id)) evs)
      = deliveredCount id s ∧
    (id ∈ s.pending →
      deliveredCount id (rpcRun (rpcStep s (RPCEvent.cancel id)) evs) = 0) := by
  have hrun := rpcRun_inv id evs s hinv
  have hout : id ∉ (rpcStep s (RPCEvent.cancel id)).pending := by
    simp only [rpcStep]
    exact hinv.2.2.not_mem_erase
  obtain ⟨h1, h2⟩ := rpcRun_absent_frozen id evs _ hout
  have hcc : deliveredCount id (rpcStep s (RPCEvent.cancel id)) = deliveredCount id s := by
    simp [rpcStep, deliveredCount]
  refine ⟨hrun.1, h1, h2.trans hcc, fun hmem => ?_⟩
  rw [h2.trans hcc]
  exact hinv.2.1 hmem

/-- Witness for C1: a freshly registered call (id 7 pending, nothing
delivered), cancelled and then hit by a late response plus a response for an
unknown id — nothing is ever delivered to channel 7 and it stays unregistered. -/
theorem rpc_at_most_one_response_witness :
    deliveredCount 7 (rpcRun ⟨[7], []⟩
        [RPCEvent.response 7 ⟨some "r", none⟩, RPCEvent.response 9 ⟨some "r", none⟩]) ≤ 1 ∧
    7 ∉ (rpcRun (rpcStep ⟨[7], []⟩ (RPCEvent.cancel 7))
        [RPCEvent.response 7 ⟨some "r", none⟩, RPCEvent.response 9 ⟨some "r", none⟩]).pending ∧
    deliveredCount 7 (rpcRun (rpcStep ⟨[7], []⟩ (RPCEvent.cancel 7))
        [RPCEvent.response 7 ⟨some "r", none⟩, RPCEvent.response 9 ⟨some "r", none⟩])
      = deliveredCount 7 (⟨[7], []⟩ : RPCState) ∧
    ((7 : Nat) ∈ (⟨[7], []⟩ : RPCState).pending →
      deliveredCount 7 (rpcRun (rpcStep ⟨[7], []⟩ (RPCEvent.cancel 7))
        [RPCEvent.response 7 ⟨some "r", none⟩, RPCEvent.response 9 ⟨some "r", none⟩]) = 0) :=
  rpc_at_most_one_response ⟨[7], []⟩ 7
    [RPCEvent.response 7 ⟨some "r", none⟩, RPCEvent.response 9 ⟨some "r", none⟩]
    ⟨by decide, by decide, by decide⟩

/-- Embeds `closePending`: when the reader terminates with error text
`errText`, every entry is deleted from the pending table and its channel is
sent one `Message` whose `Error` is `{Code: -1, Message: errText}` (the
connection-closed failure `SendRequest` then returns). -/
def closePending (s : RPCState) (errText : String) : RPCState :=
  { pending := [],
    delivered := s.delivered
      ++ s.pending.map (fun id => (id, RpcMessage.mk none (some (-1, errText)))) }

/-- C2: if the reader terminates while calls are pending, the pending table is
emptied and every pending id's channel receives exactly one message; that
message carries the connection-closed error (so `SendRequest` returns an error,
never a success result, and its blocking receive completes). -/
theorem closePending_broadcast (s : RPCState) (errText : String) (id : Nat)
    (hinv : OnceInv id s) (hmem : id ∈ s.pending) :
    (closePending s errText).pending = [] ∧
    deliveredCount id (closePending s errText) = 1 ∧
    (id, RpcMessage.mk none (some (-1, errText))) ∈ (closePending s errText).delivered ∧
    (∀ msg, (id, msg) ∈ (closePending s errText).delivered →
      msg.error = some (-1, errText)) := by
  obtain ⟨-, hpend, hnd⟩ := hinv
  have hz : deliveredCount id s = 0 := hpend hmem
  have hfilter : ∀ (l : List Nat),
      (l.map (fun j => (j, RpcMessage.mk none (some (-1, errText))))).filter
          (fun p => p.1 == id)
        = (l.filter (fun j => j == id)).map
            (fun j => (j, RpcMessage.mk none (some (-1, errText)))) := by
    intro l
    induction l with
    | nil => rfl
    | cons x xs ihx =>
      by_cases hx : x = id
      · simp [hx, ihx]
      · simp [List.filter_cons, hx, ihx]
  refine ⟨rfl, ?_, ?_, ?_⟩
  · unfold deliveredCount at hz ⊢
    unfold closePending
    rw [List.filter_append, hfilter]
    have hcnt : s.pending.filter (fun j => j == id) = [id] := by
      have h1 : s.pending.count id = 1 := List.count_eq_one_of_mem hnd hmem
      have h2 : s.pending.filter (fun j => j == id) = List.replicate (s.pending.count id) id := by
        rw [List.count]
        exact (List.filter_beq s.pending id) ▸ (List.filter_eq s.pending id) ▸ rfl
      rw [h2, h1]
      rfl
    simp [hz, hcnt]
  · unfold closePending
    refine List.mem_append_right _ ?_
    exact List.mem_map_of_mem _ hmem
  · intro msg hm
    unfold closePending at hm
    rcases List.mem_append.mp hm with hold | hnew
    · exfalso
      have : (id, msg) ∈ s.delivered.filter (fun p => p.1 == id) :=
        List.mem_filter.mpr ⟨hold, by simp⟩
      have hzlen := hz
      unfold deliveredCount at hzlen
      rw [List.length_eq_zero] at hzlen
      rw [hzlen] at this
      exact absurd this (List.not_mem_nil _)
    · rcases List.mem_map.mp hnew with ⟨j, -, hj⟩
      cases hj
      rfl

/-- Witness for C2: reader failure with ids 1, 2, 3 pending — the table drains
and channel 2 receives exactly the one connection-closed error. -/
theorem closePending_broadcast_witness :
    (closePending ⟨[1, 2, 3], []⟩ "read tcp: EOF").pending = [] ∧
    deliveredCount 2 (closePending ⟨[1, 2, 3], []⟩ "read tcp: EOF") = 1 ∧
    (2, RpcMessage.mk none (some (-1, "read tcp: EOF")))
      ∈ (closePending ⟨[1, 2, 3], []⟩ "read tcp: EOF").delivered ∧
    (∀ msg, (2, msg) ∈ (closePending ⟨[1, 2, 3], []⟩ "read tcp: EOF").delivered →
      msg.error = some (-1, "read tcp: EOF")) :=
  closePending_broadcast ⟨[1, 2, 3], []⟩ "read tcp: EOF" 2
    ⟨by decide, by decide, by decide⟩ (by decide)

/-! ## Diagnostic hub (mcp/server.go: diagHub) -/

/-- Embeds `tools.Diagnostic` (types.go). -/
structure Diagnostic where
  line : Int
  col : Int
  endLine : Int
  endCol : Int
  severity : String
  message : String
  code : String
  source : String
  suggestion : String
deriving DecidableEq

/-- Hub state: the latest snapshot per uri (`latest`) and the registered
waiter channels per uri (`waiters`), each channel named by a number and of
capacity 1. -/
structure HubState where
  latest : List (String × List Diagnostic)
  waiters : List (String × List Nat)

/-- Embeds `diagHub.Update`: overwrite the snapshot for `uri`, send the new
value to every waiter currently registered for `uri`, then clear that waiter
list. Returns the new state and the list of (channel, value) sends performed. -/
def hubUpdate (h : HubState) (uri : String) (diags : List Diagnostic) :
    HubState × List (Nat × List Diagnostic) :=
  ({ latest := setA h.latest uri diags,
     waiters := h.waiters.filter (fun p => !(p.1 == uri)) },
   ((lookupA h.waiters uri).getD []).map (fun ch => (ch, diags)))

/-- Embeds `diagHub.Wait`. Under the lock: an existing snapshot returns
immediately with no registration; otherwise a fresh capacity-1 channel `ch` is
appended to the uri's waiter list and the call blocks on `select`. What the
blocked receive sees is external scheduling, passed in as `delivered`:
`some d` models an `Update` that sent `d` to `ch` before the timeout, `none`
models the timeout firing first, in which case Go returns nil — the not-found
sentinel, modelled as `none`. -/
def hubWait (h : HubState) (uri : String) (ch : Nat)
    (delivered : Option (List Diagnostic)) :
    HubState × Option (List Diagnostic) :=
  match lookupA h.latest uri with
  | some d => (h, some d)
  | none =>
    ({ h with waiters := setA h.waiters uri (((lookupA h.waiters uri).getD []) ++ [ch]) },
     delivered)

/-- C7: the hub's race behaviour. (a) `Update(uri, D)` before `Wait(uri, t)`:
the wait returns D immediately (from the snapshot, without consulting any
delivery). (b) `Wait` registered first with no prior snapshot, then
`Update(uri, D)` within t: the update's sends include (ch, D), so the blocked
wait receives D. (c) no snapshot and no update within t: the wait returns the
not-found sentinel. -/
theorem diagHub_race (h : HubState) (uri : String) (d : List Diagnostic)
    (ch : Nat) (hnone : lookupA h.latest uri = none) :
    (∀ delivered, (hubWait (hubUpdate h uri d).1 uri ch delivered).2 = some d) ∧
    (ch, d) ∈ (hubUpdate (hubWait h uri ch none).1 uri d).2 ∧
    (hubWait h uri ch none).2 = none := by
  refine ⟨?_, ?_, ?_⟩
  · intro delivered
    unfold hubWait hubUpdate
    rw [lookupA_setA]
  · unfold hubWait
    rw [hnone]
    unfold hubUpdate
    rw [lookupA_setA]
    simp
  · unfold hubWait
    rw [hnone]

/-- Witness for C7 on an empty hub with one diagnostic. -/
theorem diagHub_race_witness :
    (∀ delivered,
      (hubWait (hubUpdate ⟨[], []⟩ "file:///a.go"
          [⟨1, 2, 1, 5, "error", "undefined: y", "", "compiler", ""⟩]).1
        "file:///a.go" 0 delivered).2
        = some [⟨1, 2, 1, 5, "error", "undefined: y", "", "compiler", ""⟩]) ∧
    ((0 : Nat), [(⟨1, 2, 1, 5, "error", "undefined: y", "", "compiler", ""⟩ : Diagnostic)])
      ∈ (hubUpdate (hubWait ⟨[], []⟩ "file:///a.go" 0 none).1 "file:///a.go"
          [⟨1, 2, 1, 5, "error", "undefined: y", "", "compiler", ""⟩]).2 ∧
    (hubWait (⟨[], []⟩ : HubState) "file:///a.go" 0 none).2 = none :=
  diagHub_race ⟨[], []⟩ "file:///a.go"
    [⟨1, 2, 1, 5, "error", "undefined: y", "", "compiler", ""⟩] 0 rfl

/-! ## Frame codec (gopls/client.go: writeMessage / readMessage)

Wire bytes are `List Nat`. `json.Marshal`/`json.Unmarshal` are external; the
codec frames the marshalled payload bytes, so the round-trip claims are about
the framing of an arbitrary byte payload. -/

/-- The UTF-8 bytes of the header text `Content-Length: ` exactly as
`writeMessage` prints it (with trailing space, before the length digits). -/
def contentLengthHeaderBytes : List Nat :=
  [67, 111, 110, 116, 101, 110, 116, 45, 76, 101, 110, 103, 116, 104, 58, 32]

/-- The UTF-8 bytes of `content-length:`, the lowercase prefix `readMessage`
matches header lines against. -/
def contentLengthLowerBytes : List Nat :=
  [99, 111, 110, 116, 101, 110, 116, 45, 108, 101, 110, 103, 116, 104, 58]

/-- Decimal ASCII bytes of `n`, as `fmt.Fprintf`'s `%d` prints it. -/
def natToBytes (n : Nat) : List Nat :=
  if n = 0 then [48] else ((Nat.digits 10 n).reverse).map (fun d => d + 48)

/-- Embeds `writeMessage`'s framing: `Content-Length: `, the payload's exact
byte length in decimal, CRLF, CRLF, then the payload bytes. -/
def writeFrame (data : List Nat) : List Nat :=
  contentLengthHeaderBytes ++ natToBytes data.length ++ [13, 10, 13, 10] ++ data

/-- Embeds `reader.ReadString('\n')`: the bytes up to and including the first
newline, plus the remaining stream; `none` models the EOF error when no
newline remains (the source returns the error without using the partial line). -/
def readLine : List Nat → Option (List Nat × List Nat)
  | [] => none
  | b :: bs =>
    if b = 10 then some ([10], bs)
    else (readLine bs).map (fun p => (b :: p.1, p.2))

/-- Embeds `strings.TrimRight(line, "\r\n")`: strip trailing CR/LF bytes. -/
def trimCRLF (l : List Nat) : List Nat :=
  (l.reverse.dropWhile (fun b => b == 13 || b == 10)).reverse

/-- ASCII lowercasing of one byte, as `strings.ToLower` acts on ASCII. -/
def lowerByte (b : Nat) : Nat :=
  if 65 ≤ b ∧ b ≤ 90 then b + 32 else b

/-- Everything after the first colon; `none` when the line has no colon
(models `strings.SplitN(line, ":", 2)` yielding fewer than 2 parts). -/
def splitAfterColon : List Nat → Option (List Nat)
  | [] => none
  | b :: bs => if b = 58 then some bs else splitAfterColon bs

/-- Go's `unicode.IsSpace` on the ASCII bytes relevant here. -/
def isSpaceByte (b : Nat) : Bool :=
  b == 32 || b == 9 || b == 10 || b == 13 || b == 11 || b == 12

/-- Embeds `strings.TrimSpace` on bytes. -/
def trimSpace (l : List Nat) : List Nat :=
  ((l.dropWhile isSpaceByte).reverse.dropWhile isSpaceByte).reverse

/-- ASCII digit byte test. -/
def isDigitByte (b : Nat) : Bool :=
  decide (48 ≤ b) && decide (b ≤ 57)

/-- Embeds `strconv.Atoi` as used on the header value: a non-empty all-digit
byte string parses to its decimal value, anything else is an error (`none`).
(Go's `Atoi` also accepts a sign; a negative value would fail `readMessage`'s
`contentLength <= 0` check exactly as the parse failure does here, so the
observable outcome is identical.) -/
def atoi (l : List Nat) : Option Nat :=
  if l.isEmpty then none
  else if l.all isDigitByte then
    some (l.foldl (fun acc b => acc * 10 + (b - 48)) 0)
  else none

/-- Embeds the per-header-line work of `readMessage`'s loop: when the
lowercased line starts with `content-length:`, split at the first colon and
parse the trimmed value; any failure leaves the accumulated length unchanged
(`none` here). -/
def parseHeaderValue (line : List Nat) : Option Nat :=
  if contentLengthLowerBytes.isPrefixOf (line.map lowerByte) then
    match splitAfterColon line with
    | some rest => atoi (trimSpace rest)
    | none => none
  else none

/-- Embeds `readMessage`'s header loop: read lines until a blank one,
remembering the last successfully parsed `Content-Length` value (starting from
0). `fuel` bounds the iteration count; since every line consumes at least one
byte, `stream.length + 1` always suffices. -/
def readHeaders : Nat → List Nat → Nat → Option (Nat × List Nat)
  | 0, _, _ => none
  | fuel + 1, stream, acc =>
    match readLine stream with
    | none => none
    | some (line, rest) =>
      let trimmed := trimCRLF line
      if trimmed = [] then some (acc, rest)
      else
        match parseHeaderValue trimmed with
        | some n => readHeaders fuel rest n
        | none => readHeaders fuel rest acc

/-- Embeds `readMessage`'s framing layer: parse headers, reject a missing or
non-positive `Content-Length` (the `"missing content-length"` error), read
exactly that many payload bytes (`io.ReadFull`; `none` when the stream ends
mid-frame), and return the payload plus the remaining stream. -/
def readMessageBytes (stream : List Nat) : Option (List Nat × List Nat) :=
  match readHeaders (stream.length + 1) stream 0 with
  | none => none
  | some (contentLength, rest) =>
    if contentLength = 0 then none
    else if rest.length < contentLength then none
    else some (rest.take contentLength, rest.drop contentLength)

/-- `dropWhile` is the identity when no element satisfies the predicate. -/
theorem dropWhile_all_false {p : Nat → Bool} :
    ∀ l : List Nat, (∀ b ∈ l, p b = false) → l.dropWhile p = l := by
  intro l h
  cases l with
  | nil => rfl
  | cons c cs =>
    rw [List.dropWhile_cons, h c (List.mem_cons_self c cs)]
    simp

/-- `ReadString` on a stream whose first newline closes the header line. -/
theorem readLine_no10 (r : List Nat) :
    ∀ l : List Nat, (∀ b ∈ l, ¬b = 10) →
      readLine (l ++ 10 :: r) = some (l ++ [10], r) := by
  intro l
  induction l with
  | nil => intro _; simp [readLine]
  | cons c cs ih =>
    intro h
    have hc : ¬c = 10 := h c (List.mem_cons_self c cs)
    have hcs := ih (fun b hb => h b (List.mem_cons_of_mem c hb))
    simp [readLine, hc, hcs]

/-- Every byte `%d` prints is an ASCII digit. -/
theorem natToBytes_mem (n b : Nat) (hb : b ∈ natToBytes n) : 48 ≤ b ∧ b ≤ 57 := by
  unfold natToBytes at hb
  by_cases hn : n = 0
  · rw [if_pos hn] at hb
    simp at hb
    omega
  · rw [if_neg hn] at hb
    rcases List.mem_map.mp hb with ⟨d, hd, rfl⟩
    have hd10 : d < 10 :=
      Nat.digits_lt_base (by norm_num) (List.mem_reverse.mp hd)
    omega

/-- `%d` prints at least one byte. -/
theorem natToBytes_ne_nil (n : Nat) : natToBytes n ≠ [] := by
  unfold natToBytes
  by_cases hn : n = 0
  · simp [hn]
  · rw [if_neg hn]
    simp [Nat.digits_ne_nil_iff_ne_zero, hn]

/-- A list is a `isPrefixOf`-prefix of itself extended by anything. -/
theorem isPrefixOf_append_self : ∀ l r : List Nat, l.isPrefixOf (l ++ r) = true := by
  intro l r
  induction l with
  | nil => simp [List.isPrefixOf]
  | cons c cs ih => simp [List.isPrefixOf, ih]

/-- Trimming CRLF from a header line that contains no CR/LF bytes itself. -/
theorem trimCRLF_append_crlf (m : List Nat)
    (hm : ∀ b ∈ m, ((b == 13) || (b == 10)) = false) :
    trimCRLF (m ++ [13, 10]) = m := by
  unfold trimCRLF
  have h1 : (m ++ [13, 10]).reverse = 10 :: 13 :: m.reverse := by
    simp
  rw [h1]
  rw [List.dropWhile_cons]
  norm_num
  rw [dropWhile_all_false m.reverse (fun b hb => hm b (List.mem_reverse.mp hb))]
  simp

/-- Lowercasing leaves digit bytes unchanged. -/
theorem map_lowerByte_digits (l : List Nat) (h : ∀ b ∈ l, 48 ≤ b ∧ b ≤ 57) :
    l.map lowerByte = l := by
  induction l with
  | nil => rfl
  | cons c cs ih =>
    have hc := h c (List.mem_cons_self c cs)
    have : lowerByte c = c := by unfold lowerByte; rw [if_neg (by omega)]
    simp only [List.map_cons, this, ih (fun b hb => h b (List.mem_cons_of_mem c hb))]

/-- The big-endian digit fold computes `Nat.ofDigits` of the little-endian
digit list. -/
theorem ofDigits_foldr (L : List Nat) :
    L.foldr (fun d acc => acc * 10 + d) 0 = Nat.ofDigits 10 L := by
  induction L with
  | nil => simp [Nat.ofDigits]
  | cons d L ih =>
    rw [List.foldr_cons, ih, Nat.ofDigits_cons]
    ring

/-- Trimming the space between the colon and the digits. -/
theorem trimSpace_space_digits (n : Nat) :
    trimSpace (32 :: natToBytes n) = natToBytes n := by
  have hnospace : ∀ b ∈ natToBytes n, isSpaceByte b = false := by
    intro b hb
    have := natToBytes_mem n b hb
    simp [isSpaceByte]
    omega
  unfold trimSpace
  rw [List.dropWhile_cons]
  norm_num [isSpaceByte]
  rw [dropWhile_all_false _ hnospace,
    dropWhile_all_false _ (fun b hb => hnospace b (List.mem_reverse.mp hb))]
  simp

/-- `Atoi` inverts `%d`. -/
theorem atoi_natToBytes (n : Nat) : atoi (natToBytes n) = some n := by
  unfold atoi
  rw [if_neg (by simpa [List.isEmpty_iff] using natToBytes_ne_nil n)]
  rw [if_pos (by
    rw [List.all_eq_true]
    intro b hb
    have := natToBytes_mem n b hb
    unfold isDigitByte
    simp
    omega)]
  unfold natToBytes
  by_cases hn : n = 0
  · simp [hn]
  · rw [if_neg hn]
    rw [List.foldl_map]
    have hfun : (fun (acc : Nat) (d : Nat) => acc * 10 + (d + 48 - 48))
        = (fun (acc : Nat) (d : Nat) => acc * 10 + d) := by
      funext acc d
      omega
    rw [hfun, List.foldl_reverse]
    have : (fun (x : Nat) (y : Nat) => y * 10 + x) = (fun x y => (fun d acc => acc * 10 + d) x y) := rfl
    rw [this]
    rw [show (Nat.digits 10 n).foldr (fun x y => (fun d acc => acc * 10 + d) x y) 0
        = (Nat.digits 10 n).foldr (fun d acc => acc * 10 + d) 0 from rfl]
    rw [ofDigits_foldr, Nat.ofDigits_digits]

/-- A written `Content-Length` header line parses back to its value. -/
theorem parseHeaderValue_header (n : Nat) :
    parseHeaderValue (contentLengthHeaderBytes ++ natToBytes n) = some n := by
  have hmaphdr : contentLengthHeaderBytes.map lowerByte = contentLengthLowerBytes ++ [32] := by
    decide
  have hmap : (contentLengthHeaderBytes ++ natToBytes n).map lowerByte
      = contentLengthLowerBytes ++ 32 :: natToBytes n := by
    rw [List.map_append, hmaphdr, map_lowerByte_digits _ (natToBytes_mem n)]
    simp
  have hsplit : splitAfterColon (contentLengthHeaderBytes ++ natToBytes n)
      = some (32 :: natToBytes n) := by
    simp [contentLengthHeaderBytes, splitAfterColon]
  unfold parseHeaderValue
  rw [hmap, if_pos (isPrefixOf_append_self contentLengthLowerBytes (32 :: natToBytes n))]
  simp only [hsplit]
  rw [trimSpace_space_digits, atoi_natToBytes]

/-- No byte of a written header line is a CR or LF. -/
theorem headerLine_no_crlf (n : Nat) :
    ∀ b ∈ contentLengthHeaderBytes ++ natToBytes n, ((b == 13) || (b == 10)) = false := by
  intro b hb
  rcases List.mem_append.mp hb with h1 | h2
  · clear hb
    revert h1
    revert b
    decide
  · have := natToBytes_mem n b h2
    simp
    omega

/-- The header loop on a written frame: one header line, one blank line,
leaving the payload untouched and returning the written length. -/
theorem readHeaders_frame (fuel n acc : Nat) (data : List Nat) :
    readHeaders (fuel + 2)
      (contentLengthHeaderBytes ++ natToBytes n ++ [13, 10, 13, 10] ++ data) acc
      = some (n, data) := by
  have hline : readLine (contentLengthHeaderBytes ++ natToBytes n ++ [13, 10, 13, 10] ++ data)
      = some ((contentLengthHeaderBytes ++ natToBytes n ++ [13]) ++ [10], 13 :: 10 :: data) := by
    have heq : contentLengthHeaderBytes ++ natToBytes n ++ [13, 10, 13, 10] ++ data
        = (contentLengthHeaderBytes ++ natToBytes n ++ [13]) ++ 10 :: 13 :: 10 :: data := by
      simp
    rw [heq]
    apply readLine_no10
    intro b hb
    rcases List.mem_append.mp hb with h1 | h2
    · have := headerLine_no_crlf n b h1
      simp at this
      omega
    · simp at h2
      omega
  have htrim : trimCRLF ((contentLengthHeaderBytes ++ natToBytes n ++ [13]) ++ [10])
      = contentLengthHeaderBytes ++ natToBytes n := by
    rw [show (contentLengthHeaderBytes ++ natToBytes n ++ [13]) ++ [10]
        = (contentLengthHeaderBytes ++ natToBytes n) ++ [13, 10] from by simp]
    exact trimCRLF_append_crlf _ (headerLine_no_crlf n)
  have hblank : readLine (13 :: 10 :: data) = some ([13, 10], data) := by
    simp [readLine]
  show readHeaders ((fuel + 1) + 1) _ _ = _
  rw [readHeaders, hline]
  simp only [htrim]
  rw [if_neg (by simp [contentLengthHeaderBytes])]
  simp only [parseHeaderValue_header]
  rw [readHeaders, hblank]
  simp [show trimCRLF [13, 10] = ([] : List Nat) from by decide]

/-- C8 as amended: the frame codec round-trips every payload of at least one
byte — in particular arbitrary multi-byte UTF-8 content — returning exactly
the written payload and leaving the rest of the stream untouched. (A 0-byte
payload is the one exception: `readMessage` rejects its frame, see the
counterexample.) -/
theorem frame_round_trip (data extra : List Nat) (hne : data ≠ []) :
    readMessageBytes (writeFrame data ++ extra) = some (data, extra) := by
  have hs : writeFrame data ++ extra
      = contentLengthHeaderBytes ++ natToBytes data.length
          ++ [13, 10, 13, 10] ++ (data ++ extra) := by
    simp [writeFrame]
  have hlen1 : 1 ≤ (writeFrame data ++ extra).length := by
    simp [writeFrame, contentLengthHeaderBytes]
  unfold readMessageBytes
  rw [show (writeFrame data ++ extra).length + 1
      = ((writeFrame data ++ extra).length - 1) + 2 from by omega]
  rw [hs]
  simp only [readHeaders_frame]
  have hd0 : ¬data.length = 0 := fun h => hne (List.length_eq_zero.mp h)
  rw [if_neg hd0, if_neg (by rw [List.length_append]; omega)]
  rw [List.take_left, List.drop_left]

/-- C8 counterexample: a 0-byte payload is framed by `writeMessage` as
`Content-Length: 0` plus an empty body, but `readMessage` rejects exactly that
frame (`contentLength <= 0` is reported as a missing content-length error), so
encode-then-decode does not yield the original message for payloads of 0
bytes. -/
theorem zero_payload_frame_rejected :
    writeFrame [] = contentLengthHeaderBytes ++ [48, 13, 10, 13, 10] ∧
    readMessageBytes (writeFrame []) = none := by
  exact ⟨by decide, by decide⟩

/-- Witness for the amended C8: a 3-byte UTF-8 payload (one CJK character)
followed by further stream bytes decodes back exactly. -/
theorem frame_round_trip_witness :
    readMessageBytes (writeFrame [228, 189, 160] ++ [104]) = some ([228, 189, 160], [104]) :=
  frame_round_trip [228, 189, 160] [104] (by decide)
